import Mathlib

/-!
The `RimeModifier` bit flags of `include/modifiers.h`.

The header declares one C enumeration, `RimeModifier`.  Every enumerator is
given by an initialiser: a shift `1 << n`, the name of an earlier enumerator
(the two aliases), or a hexadecimal literal (`kModifierMask`).  Each
enumerator is embedded as a natural number defined by the same expression,
with `<<<`, `|||` and `&&&` standing for C's `<<`, `|` and `&`.  All values
stay below `2 ^ 31`, so the natural-number operations agree with the C ones on
`int`.
-/

namespace RimeModifier

/-! ## The enumerators, in declaration order -/

/-- `kShiftMask = 1 << 0` -/
def kShiftMask : Nat := 1 <<< 0
/-- `kLockMask = 1 << 1` -/
def kLockMask : Nat := 1 <<< 1
/-- `kControlMask = 1 << 2` -/
def kControlMask : Nat := 1 <<< 2
/-- `kMod1Mask = 1 << 3` -/
def kMod1Mask : Nat := 1 <<< 3
/-- `kAltMask = kMod1Mask` -/
def kAltMask : Nat := kMod1Mask
/-- `kMod2Mask = 1 << 4` -/
def kMod2Mask : Nat := 1 <<< 4
/-- `kMod3Mask = 1 << 5` -/
def kMod3Mask : Nat := 1 <<< 5
/-- `kMod4Mask = 1 << 6` -/
def kMod4Mask : Nat := 1 <<< 6
/-- `kMod5Mask = 1 << 7` -/
def kMod5Mask : Nat := 1 <<< 7
/-- `kButton1Mask = 1 << 8` -/
def kButton1Mask : Nat := 1 <<< 8
/-- `kButton2Mask = 1 << 9` -/
def kButton2Mask : Nat := 1 <<< 9
/-- `kButton3Mask = 1 << 10` -/
def kButton3Mask : Nat := 1 <<< 10
/-- `kButton4Mask = 1 << 11` -/
def kButton4Mask : Nat := 1 <<< 11
/-- `kButton5Mask = 1 << 12` -/
def kButton5Mask : Nat := 1 <<< 12
/-- `kHandledMask = 1 << 24` -/
def kHandledMask : Nat := 1 <<< 24
/-- `kForwardMask = 1 << 25` -/
def kForwardMask : Nat := 1 <<< 25
/-- `kIgnoredMask = kForwardMask` -/
def kIgnoredMask : Nat := kForwardMask
/-- `kSuperMask = 1 << 26` -/
def kSuperMask : Nat := 1 <<< 26
/-- `kHyperMask = 1 << 27` -/
def kHyperMask : Nat := 1 <<< 27
/-- `kMetaMask = 1 << 28` -/
def kMetaMask : Nat := 1 <<< 28
/-- `kReleaseMask = 1 << 30` -/
def kReleaseMask : Nat := 1 <<< 30
/-- `kModifierMask = 0x5f001fff` -/
def kModifierMask : Nat := 0x5f001fff

/-! ## Groups of enumerators -/

/-- The shift amounts `n` of the initialisers `1 << n`, in declaration order. -/
def shiftPositions : List Nat :=
  [0, 1, 2, 3, 4, 5, 6, 7, 8, 9, 10, 11, 12, 24, 25, 26, 27, 28, 30]

/-- The 19 enumerators whose initialiser is a shift `1 << n` and that are not
declared as another enumerator's alias, in declaration order. -/
def singleBitFlags : List Nat :=
  [kShiftMask, kLockMask, kControlMask, kMod1Mask, kMod2Mask, kMod3Mask, kMod4Mask,
   kMod5Mask, kButton1Mask, kButton2Mask, kButton3Mask, kButton4Mask, kButton5Mask,
   kHandledMask, kForwardMask, kSuperMask, kHyperMask, kMetaMask, kReleaseMask]

/-- The enumerators declared before `kReleaseMask` by a shift `1 << n`: the
flags for bits 0 to 12 and 24 to 28. -/
def lowerFlags : List Nat :=
  [kShiftMask, kLockMask, kControlMask, kMod1Mask, kMod2Mask, kMod3Mask, kMod4Mask,
   kMod5Mask, kButton1Mask, kButton2Mask, kButton3Mask, kButton4Mask, kButton5Mask,
   kHandledMask, kForwardMask, kSuperMask, kHyperMask, kMetaMask]

/-- All 22 enumerators of `RimeModifier`, aliases and `kModifierMask`
included, in declaration order. -/
def enumerators : List Nat :=
  [kShiftMask, kLockMask, kControlMask, kMod1Mask, kAltMask, kMod2Mask, kMod3Mask,
   kMod4Mask, kMod5Mask, kButton1Mask, kButton2Mask, kButton3Mask, kButton4Mask,
   kButton5Mask, kHandledMask, kForwardMask, kIgnoredMask, kSuperMask, kHyperMask,
   kMetaMask, kReleaseMask, kModifierMask]

/-- A modifier word built from a list of values by C's `|`:
`x₁ | (x₂ | (… | 0))`. -/
def orAll : List Nat → Nat
  | [] => 0
  | x :: xs => x ||| orAll xs

/-! ## 32-bit integers -/

/-- C's `a << n` for a non-negative 32-bit `int` operand `a`: the result is
defined when `n` is below the width and `a * 2 ^ n` fits a signed 32-bit
`int`; otherwise the shift overflows and there is no result. -/
def shlInt32 (a n : Nat) : Option Nat :=
  if n < 32 ∧ a * 2 ^ n < 2 ^ 31 then some (a <<< n) else none

/-- The number a 32-bit word stands for when read as `unsigned int`. -/
def asUnsigned32 (w : Nat) : Nat := w % 2 ^ 32

/-- The number a 32-bit word stands for when read as a two's-complement
`int`: words with bit 31 set stand for negative numbers. -/
def asSigned32 (w : Nat) : Int :=
  if w % 2 ^ 32 < 2 ^ 31 then Int.ofNat (w % 2 ^ 32) else Int.ofNat (w % 2 ^ 32) - 2 ^ 32

/-! ## Values of the enumerators -/

/-- C1: the 19 shift-defined enumerators and both aliases have the numeric
value of the table, and the shift-defined ones are `1 << n` for the header's
shift amounts `n` (0 to 12, 24 to 28 and 30). -/
theorem enumerator_values :
    kShiftMask = 0x1 ∧ kLockMask = 0x2 ∧ kControlMask = 0x4 ∧ kMod1Mask = 0x8 ∧
    kAltMask = 0x8 ∧ kMod2Mask = 0x10 ∧ kMod3Mask = 0x20 ∧ kMod4Mask = 0x40 ∧
    kMod5Mask = 0x80 ∧ kButton1Mask = 0x100 ∧ kButton2Mask = 0x200 ∧
    kButton3Mask = 0x400 ∧ kButton4Mask = 0x800 ∧ kButton5Mask = 0x1000 ∧
    kHandledMask = 0x01000000 ∧ kForwardMask = 0x02000000 ∧
    kIgnoredMask = 0x02000000 ∧ kSuperMask = 0x04000000 ∧
    kHyperMask = 0x08000000 ∧ kMetaMask = 0x10000000 ∧
    kReleaseMask = 0x40000000 ∧
    singleBitFlags.length = 19 ∧
    singleBitFlags = shiftPositions.map (fun n => 1 <<< n) ∧
    singleBitFlags = shiftPositions.map (fun n => 2 ^ n) := by
  decide

/-! ## The aggregate mask -/

/-- C2, as stated, fails: the OR of the eighteen listed flags, which leaves
`kReleaseMask` out, is `0x1f001fff` and differs from `kModifierMask`. -/
theorem modifierMask_ne_or_without_release :
    ¬ (kModifierMask =
        (kShiftMask ||| kLockMask ||| kControlMask ||| kMod1Mask ||| kMod2Mask |||
         kMod3Mask ||| kMod4Mask ||| kMod5Mask ||| kButton1Mask ||| kButton2Mask |||
         kButton3Mask ||| kButton4Mask ||| kButton5Mask ||| kHandledMask |||
         kForwardMask ||| kSuperMask ||| kHyperMask ||| kMetaMask)) := by
  decide

/-- C2, amended: `kModifierMask` is the OR of the eighteen listed flags
together with `kReleaseMask`; without `kReleaseMask` the OR is `0x1f001fff`. -/
theorem modifierMask_eq_or_with_release :
    kModifierMask =
        (kShiftMask ||| kLockMask ||| kControlMask ||| kMod1Mask ||| kMod2Mask |||
         kMod3Mask ||| kMod4Mask ||| kMod5Mask ||| kButton1Mask ||| kButton2Mask |||
         kButton3Mask ||| kButton4Mask ||| kButton5Mask ||| kHandledMask |||
         kForwardMask ||| kSuperMask ||| kHyperMask ||| kMetaMask ||| kReleaseMask) ∧
    (kShiftMask ||| kLockMask ||| kControlMask ||| kMod1Mask ||| kMod2Mask |||
         kMod3Mask ||| kMod4Mask ||| kMod5Mask ||| kButton1Mask ||| kButton2Mask |||
         kButton3Mask ||| kButton4Mask ||| kButton5Mask ||| kHandledMask |||
         kForwardMask ||| kSuperMask ||| kHyperMask ||| kMetaMask) = 0x1f001fff ∧
    orAll lowerFlags ||| kReleaseMask = kModifierMask := by
  decide

/-- C3, as stated, fails: `kReleaseMask & kModifierMask` is not `0`. -/
theorem releaseMask_masked_ne_zero :
    kReleaseMask = 0x40000000 ∧ kReleaseMask &&& kModifierMask ≠ 0 := by
  decide

/-- C3, amended: `kReleaseMask` (`0x40000000`) masked with `kModifierMask` is
`kReleaseMask` itself, since bit 30 is set in `kModifierMask`. -/
theorem releaseMask_and_modifierMask :
    kReleaseMask = 0x40000000 ∧ kReleaseMask &&& kModifierMask = kReleaseMask ∧
    kModifierMask.testBit 30 = true := by
  decide

/-- C4: `kModifierMask` is `0x5f001fff`, which is 1593843711 in decimal. -/
theorem modifierMask_value :
    kModifierMask = 0x5f001fff ∧ kModifierMask = 1593843711 := by
  decide

/-! ## Auxiliary facts about words built by OR -/

/-- Masking distributes over the members of an OR-built word. -/
theorem orAll_and (S : List Nat) (m : Nat) :
    orAll S &&& m = orAll (S.map (fun x => x &&& m)) := by
  induction S with
  | nil => simp [orAll]
  | cons x xs ih => simp [orAll, Nat.and_distrib_right, ih]

/-- A word built from values that a mask leaves unchanged is left unchanged. -/
theorem orAll_and_of_forall (S : List Nat) (m : Nat) (h : ∀ x ∈ S, x &&& m = x) :
    orAll S &&& m = orAll S := by
  induction S with
  | nil => simp [orAll]
  | cons x xs ih =>
    have hx : x &&& m = x := h x (List.mem_cons_self x xs)
    have hxs : orAll xs &&& m = orAll xs := ih (fun y hy => h y (List.mem_cons_of_mem x hy))
    simp [orAll, Nat.and_distrib_right, hx, hxs]

/-- A bit of an OR-built word is set exactly when some member has it set. -/
theorem testBit_orAll (S : List Nat) (i : Nat) :
    (orAll S).testBit i = true ↔ ∃ x ∈ S, x.testBit i = true := by
  induction S with
  | nil => simp [orAll]
  | cons x xs ih => simp [orAll, ih]

/-- Every enumerator is below `2 ^ 31`. -/
theorem enumerators_lt : ∀ v ∈ enumerators, v < 2 ^ 31 := by
  decide

/-- No enumerator has a bit at position 31 or above. -/
theorem testBit_enumerator_of_le (v : Nat) (hv : v ∈ enumerators) (i : Nat) (hi : 31 ≤ i) :
    v.testBit i = false := by
  apply Nat.testBit_lt_two_pow
  calc v < 2 ^ 31 := enumerators_lt v hv
    _ ≤ 2 ^ i := Nat.pow_le_pow_right (by decide) hi

/-- Every shift-defined flag is an enumerator. -/
theorem singleBitFlags_subset : ∀ f ∈ singleBitFlags, f ∈ enumerators := by
  decide

/-- The AND of two shift-defined flags is the flag itself when they are the
same one and `0` otherwise. -/
theorem flag_and_flag :
    ∀ x ∈ singleBitFlags, ∀ f ∈ singleBitFlags, x &&& f = if f = x then f else 0 := by
  decide

/-- No shift-defined flag is `0`. -/
theorem flag_ne_zero : ∀ f ∈ singleBitFlags, f ≠ 0 := by
  decide

/-- The shift-defined flags are pairwise different. -/
theorem singleBitFlags_nodup_aux : singleBitFlags.Nodup := by
  decide

/-- Testing a flag on a word built from shift-defined flags tells whether the
flag is among the members. -/
theorem orAll_and_flag (S : List Nat) (hS : ∀ x ∈ S, x ∈ singleBitFlags)
    (f : Nat) (hf : f ∈ singleBitFlags) :
    orAll S &&& f = if f ∈ S then f else 0 := by
  induction S with
  | nil => simp [orAll]
  | cons x xs ih =>
    have hx : x &&& f = if f = x then f else 0 :=
      flag_and_flag x (hS x (List.mem_cons_self x xs)) f hf
    have hxs : orAll xs &&& f = if f ∈ xs then f else 0 :=
      ih (fun y hy => hS y (List.mem_cons_of_mem x hy))
    simp only [orAll, Nat.and_distrib_right, hx, hxs, List.mem_cons]
    by_cases h1 : f = x
    · subst h1
      by_cases h2 : f ∈ xs <;> simp [h2]
    · by_cases h2 : f ∈ xs <;> simp [h1, h2]

/-- A flag is among the members of a word built from shift-defined flags
exactly when testing it on the word returns the flag. -/
theorem mem_iff_orAll_and_flag (S : List Nat) (hS : ∀ x ∈ S, x ∈ singleBitFlags)
    (f : Nat) (hf : f ∈ singleBitFlags) :
    f ∈ S ↔ orAll S &&& f = f := by
  rw [orAll_and_flag S hS f hf]
  by_cases h : f ∈ S
  · simp [h]
  · have h0 : ¬ (0 = f) := fun e => flag_ne_zero f hf e.symm
    simp [h, h0]

/-- Every bit of every shift-defined flag is a bit of `kModifierMask`. -/
theorem flag_and_modifierMask : ∀ f ∈ singleBitFlags, kModifierMask &&& f = f := by
  decide

/-- Masking with `kModifierMask` leaves every enumerator unchanged. -/
theorem enumerator_and_modifierMask : ∀ v ∈ enumerators, v &&& kModifierMask = v := by
  decide

/-- Two sublists of the shift-defined flags with the same members are equal. -/
theorem sublist_flags_ext (S T : List Nat) (hS : S.Sublist singleBitFlags)
    (hT : T.Sublist singleBitFlags) (h : ∀ f, f ∈ S ↔ f ∈ T) : S = T := by
  have dS : S.Nodup := List.Nodup.sublist hS singleBitFlags_nodup_aux
  have dT : T.Nodup := List.Nodup.sublist hT singleBitFlags_nodup_aux
  exact (List.Nodup.perm_iff_eq_of_sublist singleBitFlags_nodup_aux hS hT).1
    ((List.perm_ext_iff_of_nodup dS dT).2 h)

/-! ## Single-bit flags and aliases -/

/-- C5, as stated, fails in its count: the enumerators other than the two
aliases and `kModifierMask` are 19 flags, not 17. -/
theorem singleBitFlags_length_ne_seventeen :
    singleBitFlags = ((enumerators.eraseIdx 21).eraseIdx 16).eraseIdx 4 ∧
    ¬ (singleBitFlags.length = 17) := by
  decide

/-- C5, amended: the enumerators other than the two aliases and
`kModifierMask` are 19 flags; each is a power of two with exactly one bit set,
and no two of them have the same value. -/
theorem singleBitFlags_pow_two_distinct :
    singleBitFlags = ((enumerators.eraseIdx 21).eraseIdx 16).eraseIdx 4 ∧
    singleBitFlags.length = 19 ∧
    (∀ f ∈ singleBitFlags, ∃ k, f = 2 ^ k ∧ ∀ i, f.testBit i = true ↔ i = k) ∧
    singleBitFlags.Nodup ∧
    Function.Injective singleBitFlags.get := by
  refine ⟨by decide, by decide, ?_, singleBitFlags_nodup_aux,
    List.nodup_iff_injective_get.1 singleBitFlags_nodup_aux⟩
  intro f hf
  have hpow : ∀ g ∈ singleBitFlags, ∃ k < 32, g = 2 ^ k := by decide
  obtain ⟨k, _, hk⟩ := hpow f hf
  refine ⟨k, hk, fun i => ?_⟩
  rw [hk, Nat.testBit_two_pow]
  simp [eq_comm]

/-- C6: each alias has the value of its target. -/
theorem alias_values : kAltMask = kMod1Mask ∧ kIgnoredMask = kForwardMask := by
  decide

/-! ## Masking with `kModifierMask` -/

/-- C7: a word built by OR from the flags for bits 0 to 12 and 24 to 28 is
unchanged by masking with `kModifierMask`; `kShiftMask | kControlMask` is
`0x5` and `0x5 & kModifierMask` is `0x5`. -/
theorem lowerFlags_word_and_modifierMask (S : List Nat) (hS : ∀ x ∈ S, x ∈ lowerFlags) :
    orAll S &&& kModifierMask = orAll S ∧
    kShiftMask ||| kControlMask = 0x5 ∧ 0x5 &&& kModifierMask = 0x5 := by
  have hcov : ∀ x ∈ lowerFlags, x &&& kModifierMask = x := by decide
  exact ⟨orAll_and_of_forall S kModifierMask (fun x hx => hcov x (hS x hx)),
    by decide, by decide⟩

/-- C7 at the word `kShiftMask | kControlMask`. -/
theorem lowerFlags_word_and_modifierMask_witness :
    (∀ x ∈ [kShiftMask, kControlMask], x ∈ lowerFlags) ∧
    orAll [kShiftMask, kControlMask] = 0x5 ∧
    (orAll [kShiftMask, kControlMask] &&& kModifierMask = orAll [kShiftMask, kControlMask] ∧
      kShiftMask ||| kControlMask = 0x5 ∧ 0x5 &&& kModifierMask = 0x5) :=
  ⟨by decide, by decide,
    lowerFlags_word_and_modifierMask [kShiftMask, kControlMask] (by decide)⟩

/-- C8: bit 29 and bits 15 to 23 are set in no enumerator, `kModifierMask`
included: `v & 0x20ff8000 = 0` for each of the 22 enumerators `v`. -/
theorem reserved_bits_unused :
    enumerators.length = 22 ∧ kModifierMask ∈ enumerators ∧
    (∀ v ∈ enumerators, v &&& 0x20ff8000 = 0) ∧
    kModifierMask &&& 0x20ff8000 = 0 ∧
    (∀ v ∈ enumerators, ∀ i, i = 29 ∨ (15 ≤ i ∧ i ≤ 23) → v.testBit i = false) := by
  refine ⟨by decide, by decide, by decide, by decide, ?_⟩
  intro v hv i hi
  have hlt : i < 32 := by omega
  have hsmall : ∀ w ∈ enumerators, ∀ j < 32, j = 29 ∨ (15 ≤ j ∧ j ≤ 23) →
      w.testBit j = false := by decide
  exact hsmall v hv i hlt hi

/-- C9, as stated, fails in its count: no 17 shift-defined flags have
`kModifierMask` as their OR. -/
theorem modifierMask_ne_orAll_of_seventeen :
    ¬ ∃ L : List Nat, L.length = 17 ∧ (∀ x ∈ L, x ∈ singleBitFlags) ∧
      kModifierMask = orAll L := by
  rintro ⟨L, hlen, hL, hor⟩
  have hsub : singleBitFlags ⊆ L := by
    intro f hf
    rw [mem_iff_orAll_and_flag L hL f hf, ← hor]
    exact flag_and_modifierMask f hf
  have hle : singleBitFlags.length ≤ L.length :=
    (List.subperm_of_subset singleBitFlags_nodup_aux hsub).length_le
  have h19 : singleBitFlags.length = 19 := by decide
  omega

/-- C9, amended: `kModifierMask` is the OR of all 19 shift-defined flags,
`kReleaseMask` included; a bit is set in it exactly when some flag has that
bit, the set bits are 0 to 12, 24 to 28 and 30, and masking with it leaves
every word built by OR from enumerators unchanged. -/
theorem modifierMask_eq_orAll_singleBitFlags :
    singleBitFlags.length = 19 ∧ kReleaseMask ∈ singleBitFlags ∧
    kModifierMask = orAll singleBitFlags ∧
    (∀ i, kModifierMask.testBit i = true ↔ ∃ f ∈ singleBitFlags, f.testBit i = true) ∧
    (∀ i, kModifierMask.testBit i = true ↔ (i ≤ 12 ∨ (24 ≤ i ∧ i ≤ 28) ∨ i = 30)) ∧
    (∀ i, kModifierMask.testBit i = true ↔ i ∈ shiftPositions) ∧
    (∀ S : List Nat, (∀ x ∈ S, x ∈ enumerators) →
      orAll S &&& kModifierMask = orAll S) := by
  have hor : kModifierMask = orAll singleBitFlags := by decide
  have hbits : ∀ i, kModifierMask.testBit i = true ↔
      (i ≤ 12 ∨ (24 ≤ i ∧ i ≤ 28) ∨ i = 30) := by
    intro i
    by_cases hi : i < 32
    · have hsmall : ∀ j < 32, (kModifierMask.testBit j = true ↔
          (j ≤ 12 ∨ (24 ≤ j ∧ j ≤ 28) ∨ j = 30)) := by decide
      exact hsmall i hi
    · have hfalse : kModifierMask.testBit i = false :=
        testBit_enumerator_of_le kModifierMask (by decide) i (by omega)
      constructor
      · intro h
        rw [hfalse] at h
        exact absurd h (by decide)
      · intro h
        omega
  refine ⟨by decide, by decide, hor, ?_, hbits, ?_, ?_⟩
  · intro i
    rw [hor]
    exact testBit_orAll singleBitFlags i
  · intro i
    rw [hbits i]
    simp only [shiftPositions, List.mem_cons, List.mem_singleton, List.not_mem_nil, or_false]
    omega
  · intro S hS
    exact orAll_and_of_forall S kModifierMask
      (fun x hx => enumerator_and_modifierMask x (hS x hx))

/-! ## Testing flags on words built by OR -/

/-- C10, as stated, fails in its count: the flags for bits 0 to 12 and 24 to
28 alone are 18 different shift-defined flags, so the subsets range over more
than 17 flags. -/
theorem lowerFlags_more_than_seventeen :
    lowerFlags.Sublist singleBitFlags ∧ lowerFlags.Nodup ∧ ¬ (lowerFlags.length ≤ 17) := by
  decide

/-- C10, amended: for every subset `S` of the 19 shift-defined flags, with
`w` the OR of its members, `w & f` is `f` for a flag `f` in `S` and `0` for a
flag not in `S`; `S` is the set of flags that test positive on `w`, and two
subsets with the same word are equal. -/
theorem flag_test_exact (S T : List Nat) (hS : S.Sublist singleBitFlags)
    (hT : T.Sublist singleBitFlags) :
    singleBitFlags.length = 19 ∧
    (∀ f ∈ singleBitFlags, (f ∈ S → orAll S &&& f = f) ∧ (f ∉ S → orAll S &&& f = 0)) ∧
    S = singleBitFlags.filter (fun f => decide (orAll S &&& f = f)) ∧
    (orAll S = orAll T → S = T) ∧ (S ≠ T → orAll S ≠ orAll T) := by
  have mS : ∀ x ∈ S, x ∈ singleBitFlags := fun x hx => hS.subset hx
  have mT : ∀ x ∈ T, x ∈ singleBitFlags := fun x hx => hT.subset hx
  have hinj : orAll S = orAll T → S = T := by
    intro h
    apply sublist_flags_ext S T hS hT
    intro f
    by_cases hf : f ∈ singleBitFlags
    · rw [mem_iff_orAll_and_flag S mS f hf, mem_iff_orAll_and_flag T mT f hf, h]
    · exact ⟨fun hx => absurd (mS f hx) hf, fun hx => absurd (mT f hx) hf⟩
  refine ⟨by decide, ?_, ?_, hinj, fun hne h => hne (hinj h)⟩
  · intro f hf
    rw [orAll_and_flag S mS f hf]
    constructor
    · intro h
      simp [h]
    · intro h
      simp [h]
  · apply sublist_flags_ext S _ hS (List.filter_sublist _)
    intro f
    rw [List.mem_filter, decide_eq_true_eq]
    constructor
    · intro hx
      exact ⟨mS f hx, (mem_iff_orAll_and_flag S mS f (mS f hx)).1 hx⟩
    · rintro ⟨hf, hx⟩
      exact (mem_iff_orAll_and_flag S mS f hf).2 hx

/-- C10 at the subsets `{kShiftMask, kControlMask}` and `{kLockMask}`. -/
theorem flag_test_exact_witness :
    [kShiftMask, kControlMask].Sublist singleBitFlags ∧
    [kLockMask].Sublist singleBitFlags ∧
    (singleBitFlags.length = 19 ∧
    (∀ f ∈ singleBitFlags,
      (f ∈ [kShiftMask, kControlMask] → orAll [kShiftMask, kControlMask] &&& f = f) ∧
      (f ∉ [kShiftMask, kControlMask] → orAll [kShiftMask, kControlMask] &&& f = 0)) ∧
    [kShiftMask, kControlMask] =
      singleBitFlags.filter (fun f => decide (orAll [kShiftMask, kControlMask] &&& f = f)) ∧
    (orAll [kShiftMask, kControlMask] = orAll [kLockMask] →
      [kShiftMask, kControlMask] = [kLockMask]) ∧
    ([kShiftMask, kControlMask] ≠ [kLockMask] →
      orAll [kShiftMask, kControlMask] ≠ orAll [kLockMask])) :=
  ⟨by decide, by decide,
    flag_test_exact [kShiftMask, kControlMask] [kLockMask] (by decide) (by decide)⟩

/-! ## Range of the values -/

/-- A word below `2 ^ 31` reads as itself as an `unsigned int`. -/
theorem asUnsigned32_of_lt (w : Nat) (h : w < 2 ^ 31) : asUnsigned32 w = w := by
  unfold asUnsigned32
  exact Nat.mod_eq_of_lt (by omega)

/-- A word below `2 ^ 31` reads as itself as a signed `int`. -/
theorem asSigned32_of_lt (w : Nat) (h : w < 2 ^ 31) : asSigned32 w = Int.ofNat w := by
  have hmod : w % 2 ^ 32 = w := Nat.mod_eq_of_lt (by omega)
  unfold asSigned32
  rw [hmod, if_pos h]

/-- A word built by OR from enumerators is below `2 ^ 31`. -/
theorem orAll_enumerators_lt (S : List Nat) (hS : ∀ x ∈ S, x ∈ enumerators) :
    orAll S < 2 ^ 31 := by
  have hmask : orAll S &&& kModifierMask = orAll S :=
    orAll_and_of_forall S kModifierMask
      (fun x hx => enumerator_and_modifierMask x (hS x hx))
  have hle : orAll S &&& kModifierMask ≤ kModifierMask := Nat.and_le_right
  have hm : kModifierMask < 2 ^ 31 := by decide
  omega

/-- C11: every enumerator, `kModifierMask` included, and the OR of all
enumerators lie strictly between `0` and `2 ^ 31`; every shift `1 << n` of the
header has `n ≤ 30` and does not overflow a signed 32-bit `int`; bit 31 is set
in none of them; and each reads as the same number as a signed 32-bit `int`
and as a 32-bit unsigned word. -/
theorem enumerators_fit_int32 :
    (∀ v ∈ enumerators, 0 < v ∧ v < 2 ^ 31) ∧
    (0 < orAll enumerators ∧ orAll enumerators < 2 ^ 31) ∧
    (∀ n ∈ shiftPositions, n ≤ 30 ∧ shlInt32 1 n = some (1 <<< n)) ∧
    (∀ v ∈ enumerators, v.testBit 31 = false) ∧
    (orAll enumerators).testBit 31 = false ∧
    (∀ v ∈ enumerators, asSigned32 v = Int.ofNat v ∧ asUnsigned32 v = v ∧
      asSigned32 v = Int.ofNat (asUnsigned32 v)) ∧
    (asSigned32 (orAll enumerators) = Int.ofNat (orAll enumerators) ∧
      asUnsigned32 (orAll enumerators) = orAll enumerators) ∧
    (∀ S : List Nat, (∀ x ∈ S, x ∈ enumerators) →
      orAll S < 2 ^ 31 ∧ asSigned32 (orAll S) = Int.ofNat (asUnsigned32 (orAll S))) := by
  have hall : orAll enumerators < 2 ^ 31 := orAll_enumerators_lt enumerators (fun _ h => h)
  refine ⟨by decide, ⟨by decide, hall⟩, by decide, ?_, ?_, ?_, ?_, ?_⟩
  · intro v hv
    exact testBit_enumerator_of_le v hv 31 (Nat.le_refl 31)
  · exact Nat.testBit_lt_two_pow hall
  · intro v hv
    have hlt : v < 2 ^ 31 := enumerators_lt v hv
    refine ⟨asSigned32_of_lt v hlt, asUnsigned32_of_lt v hlt, ?_⟩
    rw [asUnsigned32_of_lt v hlt]
    exact asSigned32_of_lt v hlt
  · exact ⟨asSigned32_of_lt _ hall, asUnsigned32_of_lt _ hall⟩
  · intro S hS
    have hlt : orAll S < 2 ^ 31 := orAll_enumerators_lt S hS
    refine ⟨hlt, ?_⟩
    rw [asUnsigned32_of_lt _ hlt]
    exact asSigned32_of_lt _ hlt

end RimeModifier
